import Mathlib

/-!
Shallow embedding of `src/imagestats/src/computeMean.c`.

The C file computes clipped summary statistics over a flat buffer of
doubles: a single pass over `image[0..nelements-1]` accumulates the
count, sum and sum of squares of the samples lying in the inclusive
range `[clipmin, clipmax]`, while tracking their running minimum and
maximum (seeded from `clipmax` and `clipmin` respectively), and then
derives `mean = sum / numGoodPixels` and
`stddev = sqrt((sumsq - mean*sum) / (numGoodPixels - 1))`.

Machine doubles are modelled as exact rationals (`ℚ`), the C `int` as
`Int`, and the buffer as a `List ℚ`.  Division is `ℚ` division (so
`x / 0 = 0` rather than an IEEE non-finite value); claims about the
division-by-zero cases are therefore stated structurally, about the
numerator and the divisor of the expressions the C code evaluates.
The square root in the `stddev` line has no exact rational value, so
the embedded result carries `stddevSq`, the exact value the C code
passes to `sqrt`; theorems that speak about `stddev` itself apply
`Real.sqrt` to the real coercion of that field.

A note on `*numGoodPixels`: the core function `computeMean_` does NOT
initialize the counter it increments — it adds to whatever value the
caller left in the output location.  The embedding therefore threads
that entry value through explicitly (`numGoodPixels0`).  The Python
binding wrapper `computeMean` sets `numGoodPixels = 0` before calling
the core, which the embedded wrapper mirrors.
-/

namespace ImageStats

/-- Local accumulator state of the loop in `computeMean_`:
`tmpMinValue`, `tmpMaxValue`, the counter behind `*numGoodPixels`,
`sum` and `sumsq`. -/
structure LoopState where
  tmpMinValue : ℚ
  tmpMaxValue : ℚ
  numGoodPixels : Int
  sum : ℚ
  sumsq : ℚ
  deriving DecidableEq, Repr

/-- Body of the `for` loop of `computeMean_` for one element `x = image[i]`:
if `clipmin <= x && x <= clipmax`, lower `tmpMinValue`, raise `tmpMaxValue`,
increment the counter and accumulate `sum` and `sumsq`; otherwise the
iteration leaves the state untouched. -/
def loopStep (clipmin clipmax : ℚ) (s : LoopState) (x : ℚ) : LoopState :=
  if clipmin ≤ x ∧ x ≤ clipmax then
    { tmpMinValue := if x < s.tmpMinValue then x else s.tmpMinValue
      tmpMaxValue := if x > s.tmpMaxValue then x else s.tmpMaxValue
      numGoodPixels := s.numGoodPixels + 1
      sum := s.sum + x
      sumsq := s.sumsq + x * x }
  else s

/-- State of `computeMean_` just before its loop: `sum = 0`, `sumsq = 0`,
`tmpMinValue = clipmax`, `tmpMaxValue = clipmin`; the counter holds the
value `numGoodPixels0` found at `*numGoodPixels` on entry (the core does
not reset it). -/
def initState (clipmin clipmax : ℚ) (numGoodPixels0 : Int) : LoopState :=
  { tmpMinValue := clipmax
    tmpMaxValue := clipmin
    numGoodPixels := numGoodPixels0
    sum := 0
    sumsq := 0 }

/-- Accumulator state after the full pass of `computeMean_` over `image`. -/
def finalState (image : List ℚ) (clipmin clipmax : ℚ)
    (numGoodPixels0 : Int) : LoopState :=
  image.foldl (loopStep clipmin clipmax) (initState clipmin clipmax numGoodPixels0)

/-- The five values `computeMean_` stores through its output pointers,
together with its `return 1` status.  `stddevSq` is the exact argument
the C code hands to `sqrt` on the `stddev` line. -/
structure MeanResult where
  status : Int
  numGoodPixels : Int
  mean : ℚ
  stddevSq : ℚ
  minValue : ℚ
  maxValue : ℚ
  deriving DecidableEq, Repr

/-- Embedding of the core `computeMean_`, with the entry value of
`*numGoodPixels` made explicit as `numGoodPixels0`. -/
def computeMean_ (image : List ℚ) (clipmin clipmax : ℚ)
    (numGoodPixels0 : Int) : MeanResult :=
  let s := finalState image clipmin clipmax numGoodPixels0
  { status := 1
    numGoodPixels := s.numGoodPixels
    mean := s.sum / (s.numGoodPixels : ℚ)
    stddevSq := (s.sumsq - s.sum / (s.numGoodPixels : ℚ) * s.sum) /
      ((s.numGoodPixels - 1 : Int) : ℚ)
    minValue := s.tmpMinValue
    maxValue := s.tmpMaxValue }

/-- Embedding of the binding wrapper `computeMean`, which zeroes the
`numGoodPixels` cell before invoking the core and returns the resulting
5-tuple (plus status). -/
def computeMean (image : List ℚ) (clipmin clipmax : ℚ) : MeanResult :=
  computeMean_ image clipmin clipmax 0

/-- The clip test of the loop, as a Boolean: `clipmin <= x && x <= clipmax`. -/
def accept (clipmin clipmax x : ℚ) : Bool :=
  decide (clipmin ≤ x) && decide (x ≤ clipmax)

/-- Memory visible to one call of the core: the (read-only in fact)
sample buffer and the five output cells the caller owns. -/
structure Mem where
  image : List ℚ
  numGoodPixels : Int
  mean : ℚ
  stddevSq : ℚ
  minValue : ℚ
  maxValue : ℚ
  deriving DecidableEq, Repr

/-- Embedding of one call of `computeMean_` as a transformer on the
caller-visible memory: the returned `Int` is the C return status and the
returned `Mem` is the memory after the call.  The buffer component is
only ever read (the C body contains no store to `image[i]`), and the
five output cells are overwritten with the computed values — except
that the counter is incremented from its entry value, never reset. -/
def computeMeanRun (clipmin clipmax : ℚ) (m : Mem) : Int × Mem :=
  let s := m.image.foldl (loopStep clipmin clipmax)
    (initState clipmin clipmax m.numGoodPixels)
  (1,
    { image := m.image
      numGoodPixels := s.numGoodPixels
      mean := s.sum / (s.numGoodPixels : ℚ)
      stddevSq := (s.sumsq - s.sum / (s.numGoodPixels : ℚ) * s.sum) /
        ((s.numGoodPixels - 1 : Int) : ℚ)
      minValue := s.tmpMinValue
      maxValue := s.tmpMaxValue })

/-! Basic facts about one loop iteration. -/

/-- The `if (image[i] < tmpMinValue)` update computes the binary minimum. -/
lemma if_lt_eq_min (x m : ℚ) : (if x < m then x else m) = min m x := by
  rcases lt_or_ge x m with h | h
  · simp [h, min_eq_right h.le]
  · simp [not_lt.mpr h, min_eq_left h]

/-- The `if (image[i] > tmpMaxValue)` update computes the binary maximum. -/
lemma if_gt_eq_max (x m : ℚ) : (if x > m then x else m) = max m x := by
  rcases lt_or_ge m x with h | h
  · simp [h, max_eq_right h.le]
  · simp [not_lt.mpr h, max_eq_left h]

/-- An iteration on an in-range sample updates all five accumulators. -/
lemma loopStep_accept {clipmin clipmax x : ℚ} (s : LoopState)
    (h : clipmin ≤ x ∧ x ≤ clipmax) :
    loopStep clipmin clipmax s x =
      { tmpMinValue := min s.tmpMinValue x
        tmpMaxValue := max s.tmpMaxValue x
        numGoodPixels := s.numGoodPixels + 1
        sum := s.sum + x
        sumsq := s.sumsq + x * x } := by
  simp [loopStep, h, if_lt_eq_min, if_gt_eq_max]

/-- An iteration on an out-of-range sample leaves the state untouched. -/
lemma loopStep_reject {clipmin clipmax x : ℚ} (s : LoopState)
    (h : ¬ (clipmin ≤ x ∧ x ≤ clipmax)) :
    loopStep clipmin clipmax s x = s := by
  simp [loopStep, h]

/-- The Boolean clip test decides exactly the loop condition. -/
lemma accept_iff (clipmin clipmax x : ℚ) :
    accept clipmin clipmax x = true ↔ clipmin ≤ x ∧ x ≤ clipmax := by
  simp [accept]

/-- Samples failing the clip test can be deleted from the buffer without
changing the state the pass produces. -/
lemma foldl_filter (clipmin clipmax : ℚ) :
    ∀ (l : List ℚ) (s : LoopState),
      l.foldl (loopStep clipmin clipmax) s =
        (l.filter (accept clipmin clipmax)).foldl (loopStep clipmin clipmax) s := by
  intro l
  induction l with
  | nil => intro s; rfl
  | cons x xs ih =>
    intro s
    by_cases hx : clipmin ≤ x ∧ x ≤ clipmax
    · rw [List.foldl_cons, List.filter_cons_of_pos (by simpa [accept_iff] using hx),
        List.foldl_cons, ih]
    · rw [List.foldl_cons, loopStep_reject s hx,
        List.filter_cons_of_neg (by simpa [accept_iff] using hx), ih]

/-! Closed form of the pass over a buffer whose samples all pass the clip
test, and hence (through `foldl_filter`) of the pass over any buffer. -/

/-- Running the loop over accepted samples only: the counter advances by
the length, the sums by the sum and the sum of squares, and the running
extrema are the `min`/`max` folds of the samples over their seeds. -/
lemma foldl_accepted (clipmin clipmax : ℚ) :
    ∀ (l : List ℚ), (∀ x ∈ l, clipmin ≤ x ∧ x ≤ clipmax) →
      ∀ s : LoopState,
      l.foldl (loopStep clipmin clipmax) s =
        { tmpMinValue := l.foldl min s.tmpMinValue
          tmpMaxValue := l.foldl max s.tmpMaxValue
          numGoodPixels := s.numGoodPixels + (l.length : Int)
          sum := s.sum + l.sum
          sumsq := s.sumsq + (l.map fun x => x * x).sum } := by
  intro l
  induction l with
  | nil => intro _ s; simp
  | cons x xs ih =>
    intro hmem s
    have hx : clipmin ≤ x ∧ x ≤ clipmax := hmem x (List.mem_cons_self x xs)
    rw [List.foldl_cons, loopStep_accept s hx,
      ih (fun y hy => hmem y (List.mem_cons_of_mem x hy))]
    simp only [List.foldl_cons, List.length_cons, List.sum_cons, List.map_cons]
    simp only [LoopState.mk.injEq]
    refine ⟨trivial, trivial, ?_, ?_, ?_⟩ <;> push_cast <;> ring

/-- The accepted samples of `image` for clip bounds `clipmin`, `clipmax`:
the sublist passing the loop's inclusive clip test, in buffer order. -/
def acceptedOf (image : List ℚ) (clipmin clipmax : ℚ) : List ℚ :=
  image.filter (accept clipmin clipmax)

lemma mem_acceptedOf {image : List ℚ} {clipmin clipmax x : ℚ} :
    x ∈ acceptedOf image clipmin clipmax ↔
      x ∈ image ∧ clipmin ≤ x ∧ x ≤ clipmax := by
  simp [acceptedOf, List.mem_filter, accept_iff]

/-- Closed form of the state after the pass of `computeMean_`, in terms
of the accepted sublist. -/
lemma finalState_eq (image : List ℚ) (clipmin clipmax : ℚ) (n0 : Int) :
    finalState image clipmin clipmax n0 =
      { tmpMinValue := (acceptedOf image clipmin clipmax).foldl min clipmax
        tmpMaxValue := (acceptedOf image clipmin clipmax).foldl max clipmin
        numGoodPixels := n0 + ((acceptedOf image clipmin clipmax).length : Int)
        sum := (acceptedOf image clipmin clipmax).sum
        sumsq := ((acceptedOf image clipmin clipmax).map fun x => x * x).sum } := by
  rw [finalState, foldl_filter, ← acceptedOf,
    foldl_accepted clipmin clipmax _
      (fun x hx => (mem_acceptedOf.mp hx).2) (initState clipmin clipmax n0)]
  simp [initState]

lemma finalState_numGood (image : List ℚ) (clipmin clipmax : ℚ) (n0 : Int) :
    (finalState image clipmin clipmax n0).numGoodPixels =
      n0 + ((acceptedOf image clipmin clipmax).length : Int) := by
  rw [finalState_eq]

lemma finalState_sum (image : List ℚ) (clipmin clipmax : ℚ) (n0 : Int) :
    (finalState image clipmin clipmax n0).sum =
      (acceptedOf image clipmin clipmax).sum := by
  rw [finalState_eq]

lemma finalState_sumsq (image : List ℚ) (clipmin clipmax : ℚ) (n0 : Int) :
    (finalState image clipmin clipmax n0).sumsq =
      ((acceptedOf image clipmin clipmax).map fun x => x * x).sum := by
  rw [finalState_eq]

lemma finalState_min (image : List ℚ) (clipmin clipmax : ℚ) (n0 : Int) :
    (finalState image clipmin clipmax n0).tmpMinValue =
      (acceptedOf image clipmin clipmax).foldl min clipmax := by
  rw [finalState_eq]

lemma finalState_max (image : List ℚ) (clipmin clipmax : ℚ) (n0 : Int) :
    (finalState image clipmin clipmax n0).tmpMaxValue =
      (acceptedOf image clipmin clipmax).foldl max clipmin := by
  rw [finalState_eq]

/-! Elementary facts about `min`/`max` folds, used to read the running
extrema back as the minimum and maximum of the accepted samples. -/

lemma foldl_min_le_init : ∀ (l : List ℚ) (a : ℚ), l.foldl min a ≤ a := by
  intro l
  induction l with
  | nil => intro a; simp
  | cons x xs ih =>
    intro a
    exact le_trans (ih (min a x)) (min_le_left a x)

lemma foldl_min_le_mem :
    ∀ (l : List ℚ) (a : ℚ), ∀ x ∈ l, l.foldl min a ≤ x := by
  intro l
  induction l with
  | nil => intro a x hx; cases hx
  | cons y ys ih =>
    intro a x hx
    rcases List.mem_cons.mp hx with h | h
    · subst h
      exact le_trans (foldl_min_le_init ys (min a x)) (min_le_right a x)
    · exact ih (min a y) x h

lemma foldl_min_mem_or :
    ∀ (l : List ℚ) (a : ℚ), l.foldl min a = a ∨ l.foldl min a ∈ l := by
  intro l
  induction l with
  | nil => intro a; exact Or.inl rfl
  | cons x xs ih =>
    intro a
    rcases ih (min a x) with h | h
    · rcases min_choice a x with hm | hm
      · exact Or.inl (by rw [List.foldl_cons, h, hm])
      · exact Or.inr (by rw [List.foldl_cons, h, hm]; exact List.mem_cons_self x xs)
    · exact Or.inr (List.mem_cons_of_mem x h)

lemma le_foldl_max_init : ∀ (l : List ℚ) (a : ℚ), a ≤ l.foldl max a := by
  intro l
  induction l with
  | nil => intro a; simp
  | cons x xs ih =>
    intro a
    exact le_trans (le_max_left a x) (ih (max a x))

lemma mem_le_foldl_max :
    ∀ (l : List ℚ) (a : ℚ), ∀ x ∈ l, x ≤ l.foldl max a := by
  intro l
  induction l with
  | nil => intro a x hx; cases hx
  | cons y ys ih =>
    intro a x hx
    rcases List.mem_cons.mp hx with h | h
    · subst h
      exact le_trans (le_max_right a x) (le_foldl_max_init ys (max a x))
    · exact ih (max a y) x h

lemma foldl_max_mem_or :
    ∀ (l : List ℚ) (a : ℚ), l.foldl max a = a ∨ l.foldl max a ∈ l := by
  intro l
  induction l with
  | nil => intro a; exact Or.inl rfl
  | cons x xs ih =>
    intro a
    rcases ih (max a x) with h | h
    · rcases max_choice a x with hm | hm
      · exact Or.inl (by rw [List.foldl_cons, h, hm])
      · exact Or.inr (by rw [List.foldl_cons, h, hm]; exact List.mem_cons_self x xs)
    · exact Or.inr (List.mem_cons_of_mem x h)

/-- A `min` fold over a nonempty list of elements bounded by the seed
lands on a member of the list. -/
lemma foldl_min_mem_of_forall_le {l : List ℚ} {a : ℚ} (hne : l ≠ [])
    (hub : ∀ x ∈ l, x ≤ a) : l.foldl min a ∈ l := by
  rcases foldl_min_mem_or l a with h | h
  · obtain ⟨x, hx⟩ := List.exists_mem_of_ne_nil l hne
    have h1 : l.foldl min a ≤ x := foldl_min_le_mem l a x hx
    have h2 : x ≤ a := hub x hx
    have : l.foldl min a = x := le_antisymm h1 (by rw [h]; exact h2)
    rw [this]; exact hx
  · exact h

/-- A `max` fold over a nonempty list of elements bounded below by the
seed lands on a member of the list. -/
lemma foldl_max_mem_of_forall_ge {l : List ℚ} {a : ℚ} (hne : l ≠ [])
    (hlb : ∀ x ∈ l, a ≤ x) : l.foldl max a ∈ l := by
  rcases foldl_max_mem_or l a with h | h
  · obtain ⟨x, hx⟩ := List.exists_mem_of_ne_nil l hne
    have h1 : x ≤ l.foldl max a := mem_le_foldl_max l a x hx
    have h2 : a ≤ x := hlb x hx
    have : l.foldl max a = x := le_antisymm (by rw [h]; exact h2) h1
    rw [this]; exact hx
  · exact h

/-- Permutation invariance of a `min` fold. -/
lemma foldl_min_perm {l₁ l₂ : List ℚ} (h : l₁.Perm l₂) :
    ∀ a : ℚ, l₁.foldl min a = l₂.foldl min a := by
  induction h with
  | nil => intro a; rfl
  | cons x _ ih => intro a; simpa using ih (min a x)
  | swap x y l =>
    intro a
    simp only [List.foldl_cons]
    rw [min_right_comm]
  | trans _ _ ih₁ ih₂ => intro a; rw [ih₁ a, ih₂ a]

/-- Permutation invariance of a `max` fold. -/
lemma foldl_max_perm {l₁ l₂ : List ℚ} (h : l₁.Perm l₂) :
    ∀ a : ℚ, l₁.foldl max a = l₂.foldl max a := by
  induction h with
  | nil => intro a; rfl
  | cons x _ ih => intro a; simpa using ih (max a x)
  | swap x y l =>
    intro a
    simp only [List.foldl_cons]
    rw [max_assoc, max_comm y x, ← max_assoc]
  | trans _ _ ih₁ ih₂ => intro a; rw [ih₁ a, ih₂ a]

/-! Algebra behind the `stddev` shortcut. -/

/-- Expansion of a sum of squared deviations from an arbitrary centre. -/
lemma sum_sq_dev (m : ℚ) :
    ∀ l : List ℚ,
      (l.map fun x => (x - m) ^ 2).sum =
        (l.map fun x => x * x).sum - 2 * m * l.sum + (l.length : ℚ) * m ^ 2 := by
  intro l
  induction l with
  | nil => simp
  | cons x xs ih =>
    simp only [List.map_cons, List.sum_cons, List.length_cons, ih]
    push_cast
    ring

/-- The computational shortcut `sumsq - mean * sum` equals the sum of
squared deviations from the mean, when the count is nonzero. -/
lemma shortcut_eq_sum_sq_dev (l : List ℚ) (hne : (l.length : ℚ) ≠ 0) :
    (l.map fun x => x * x).sum - l.sum / (l.length : ℚ) * l.sum =
      (l.map fun x => (x - l.sum / (l.length : ℚ)) ^ 2).sum := by
  rw [sum_sq_dev]
  field_simp
  ring

/-- Deleting rejected samples from the buffer does not change the core's
result. -/
lemma computeMean_filter (image : List ℚ) (clipmin clipmax : ℚ) (n0 : Int) :
    computeMean_ image clipmin clipmax n0 =
      computeMean_ (acceptedOf image clipmin clipmax) clipmin clipmax n0 := by
  have h : finalState image clipmin clipmax n0 =
      finalState (acceptedOf image clipmin clipmax) clipmin clipmax n0 := by
    rw [finalState, foldl_filter]; rfl
  simp only [computeMean_, h]

/-! The claims. -/

/-- C1: Clipping is inclusive at both ends: an iteration touches the
accumulators (in particular, increments the good-pixel counter) exactly
when `clipmin ≤ x ∧ x ≤ clipmax`; a rejected sample leaves the whole
state unchanged, so the core's result only depends on the samples in the
inclusive range; and when `clipmin ≤ clipmax`, a sample exactly equal to
`clipmin` or to `clipmax` passes the clip test. -/
theorem clipping_inclusive (clipmin clipmax x : ℚ) (s : LoopState) :
    ((loopStep clipmin clipmax s x).numGoodPixels = s.numGoodPixels + 1 ↔
      clipmin ≤ x ∧ x ≤ clipmax)
    ∧ (¬ (clipmin ≤ x ∧ x ≤ clipmax) → loopStep clipmin clipmax s x = s)
    ∧ (∀ (image : List ℚ) (n0 : Int),
        computeMean_ image clipmin clipmax n0 =
          computeMean_ (acceptedOf image clipmin clipmax) clipmin clipmax n0)
    ∧ (clipmin ≤ clipmax →
        accept clipmin clipmax clipmin = true ∧
        accept clipmin clipmax clipmax = true) := by
  refine ⟨⟨?_, ?_⟩, ?_, ?_, ?_⟩
  · intro h
    by_contra hnot
    rw [loopStep_reject s hnot] at h
    omega
  · intro h
    rw [loopStep_accept s h]
  · intro h
    exact loopStep_reject s h
  · intro image n0
    exact computeMean_filter image clipmin clipmax n0
  · intro h
    exact ⟨(accept_iff clipmin clipmax clipmin).mpr ⟨le_refl _, h⟩,
      (accept_iff clipmin clipmax clipmax).mpr ⟨h, le_refl _⟩⟩

/-- Witness for `clipping_inclusive` at clip range `[0, 2]`: the
out-of-range sample `3` leaves the state untouched, and both bounds pass
the clip test. -/
theorem clipping_inclusive_witness :
    loopStep 0 2 (initState 0 2 0) 3 = initState 0 2 0 ∧
    accept 0 2 0 = true ∧ accept 0 2 2 = true :=
  ⟨(clipping_inclusive 0 2 3 (initState 0 2 0)).2.1 (by decide),
   (clipping_inclusive 0 2 3 (initState 0 2 0)).2.2.2 (by decide)⟩

/-- C2 counterexample: the core does not reset the good-pixel counter.
Called with entry value `5` on the buffer `[1]` with clip range `[0, 2]`
(one in-range sample), the core returns `numGoodPixels = 6`, not the
in-range count `1`: the result is not independent of the value the
output location holds on entry to the core. -/
theorem counter_not_reset_counterexample :
    (computeMean_ [(1 : ℚ)] 0 2 5).numGoodPixels = 6
    ∧ ((acceptedOf [(1 : ℚ)] 0 2).length : Int) = 1
    ∧ (computeMean_ [(1 : ℚ)] 0 2 5).numGoodPixels ≠
        ((acceptedOf [(1 : ℚ)] 0 2).length : Int) := by
  refine ⟨?_, ?_, ?_⟩ <;> decide

/-- C2 (amended): the core initializes `sum` and `sumsq` to zero, but
not the good-pixel counter: it returns the entry value of
`*numGoodPixels` plus the number of samples in the inclusive clip range.
The binding wrapper zeroes that location first, so through the wrapper
`numGoodPixels` equals exactly the in-range sample count. -/
theorem counter_adds_entry_value :
    ∀ (image : List ℚ) (clipmin clipmax : ℚ) (n0 : Int),
      (finalState image clipmin clipmax n0).sum =
        (acceptedOf image clipmin clipmax).sum
      ∧ (finalState image clipmin clipmax n0).sumsq =
          ((acceptedOf image clipmin clipmax).map fun x => x * x).sum
      ∧ (computeMean_ image clipmin clipmax n0).numGoodPixels =
          n0 + ((acceptedOf image clipmin clipmax).length : Int)
      ∧ (computeMean image clipmin clipmax).numGoodPixels =
          ((acceptedOf image clipmin clipmax).length : Int) := by
  intro image clipmin clipmax n0
  refine ⟨finalState_sum _ _ _ _, finalState_sumsq _ _ _ _, ?_, ?_⟩
  · simp only [computeMean_]
    exact finalState_numGood _ _ _ _
  · simp only [computeMean, computeMean_]
    rw [finalState_numGood, zero_add]

/-- C3: if no sample is accepted the returned extrema are the unmet
sentinel seeds, swapped relative to their usual meaning:
`minValue = clipmax` and `maxValue = clipmin`; in particular the empty
buffer yields `numGoodPixels = 0` with exactly those sentinels. -/
theorem zero_accepted_swapped_sentinels (image : List ℚ) (clipmin clipmax : ℚ) :
    ((computeMean image clipmin clipmax).numGoodPixels = 0 →
      (computeMean image clipmin clipmax).minValue = clipmax ∧
      (computeMean image clipmin clipmax).maxValue = clipmin)
    ∧ (computeMean ([] : List ℚ) clipmin clipmax).numGoodPixels = 0
    ∧ (computeMean ([] : List ℚ) clipmin clipmax).minValue = clipmax
    ∧ (computeMean ([] : List ℚ) clipmin clipmax).maxValue = clipmin := by
  refine ⟨?_, rfl, rfl, rfl⟩
  intro h
  simp only [computeMean, computeMean_, finalState_numGood, zero_add,
    Nat.cast_eq_zero, List.length_eq_zero] at h
  simp only [computeMean, computeMean_, finalState_min, finalState_max, h,
    List.foldl_nil]
  exact ⟨trivial, trivial⟩

/-- Witness for `zero_accepted_swapped_sentinels`: the buffer `[5]` with
clip range `[0, 1]` accepts nothing, so the returned minimum is the high
bound `1` and the returned maximum is the low bound `0`. -/
theorem zero_accepted_swapped_sentinels_witness :
    (computeMean [(5 : ℚ)] 0 1).minValue = 1 ∧
    (computeMean [(5 : ℚ)] 0 1).maxValue = 0 :=
  (zero_accepted_swapped_sentinels [(5 : ℚ)] 0 1).1 (by decide)

/-- C8: the computation never fails through an explicit signal: for
every buffer, clip bounds and counter entry value — including an empty
buffer and bounds that accept nothing — the core runs to completion and
returns status `1`, and the wrapper obtains that same status. -/
theorem always_returns_status_one :
    ∀ (image : List ℚ) (clipmin clipmax : ℚ) (n0 : Int),
      (computeMean_ image clipmin clipmax n0).status = 1
      ∧ (computeMean image clipmin clipmax).status = 1 := by
  intro image clipmin clipmax n0
  exact ⟨rfl, rfl⟩

/-- C10: reversed clip bounds reject everything: when
`clipmax < clipmin` every iteration leaves the state unchanged, the
wrapper reports zero good pixels, the extrema are the swapped sentinels
`minValue = clipmax`, `maxValue = clipmin`, and hence
`minValue < maxValue`. -/
theorem reversed_bounds_reject_all (image : List ℚ) (clipmin clipmax : ℚ)
    (h : clipmax < clipmin) :
    (∀ (s : LoopState) (x : ℚ), loopStep clipmin clipmax s x = s)
    ∧ (computeMean image clipmin clipmax).numGoodPixels = 0
    ∧ (computeMean image clipmin clipmax).minValue = clipmax
    ∧ (computeMean image clipmin clipmax).maxValue = clipmin
    ∧ (computeMean image clipmin clipmax).minValue <
        (computeMean image clipmin clipmax).maxValue := by
  have hno : ∀ x : ℚ, ¬ (clipmin ≤ x ∧ x ≤ clipmax) := by
    intro x hx
    exact absurd (le_trans hx.1 hx.2) (not_le.mpr h)
  have hacc : acceptedOf image clipmin clipmax = [] := by
    refine List.filter_eq_nil_iff.mpr ?_
    intro a _ ha
    exact hno a ((accept_iff clipmin clipmax a).mp ha)
  refine ⟨fun s x => loopStep_reject s (hno x), ?_, ?_, ?_, ?_⟩
  · simp only [computeMean, computeMean_, finalState_numGood, hacc,
      List.length_nil, Nat.cast_zero, add_zero]
  · simp only [computeMean, computeMean_, finalState_min, hacc, List.foldl_nil]
  · simp only [computeMean, computeMean_, finalState_max, hacc, List.foldl_nil]
  · simp only [computeMean, computeMean_, finalState_min, finalState_max, hacc,
      List.foldl_nil]
    exact h

/-- Witness for `reversed_bounds_reject_all`: buffer `[1, 2]` with the
reversed range `clipmin = 5 > 3 = clipmax` accepts nothing and returns
`minValue = 3 < 5 = maxValue`. -/
theorem reversed_bounds_reject_all_witness :
    (computeMean [(1 : ℚ), 2] 5 3).numGoodPixels = 0 ∧
    (computeMean [(1 : ℚ), 2] 5 3).minValue = 3 ∧
    (computeMean [(1 : ℚ), 2] 5 3).maxValue = 5 ∧
    (computeMean [(1 : ℚ), 2] 5 3).minValue <
      (computeMean [(1 : ℚ), 2] 5 3).maxValue :=
  (reversed_bounds_reject_all [(1 : ℚ), 2] 5 3 (by decide)).2

/-- C4: with at least one accepted sample, the returned `minValue` and
`maxValue` occur in the buffer, lie in the inclusive clip range, bound
every accepted sample below and above respectively (so they are the
minimum and maximum of the accepted samples), and satisfy
`minValue ≤ maxValue`. -/
theorem minmax_of_accepted (image : List ℚ) (clipmin clipmax : ℚ)
    (h : 1 ≤ (computeMean image clipmin clipmax).numGoodPixels) :
    (computeMean image clipmin clipmax).minValue ∈ image
    ∧ (computeMean image clipmin clipmax).maxValue ∈ image
    ∧ (computeMean image clipmin clipmax).minValue ∈
        acceptedOf image clipmin clipmax
    ∧ (computeMean image clipmin clipmax).maxValue ∈
        acceptedOf image clipmin clipmax
    ∧ clipmin ≤ (computeMean image clipmin clipmax).minValue
    ∧ (computeMean image clipmin clipmax).maxValue ≤ clipmax
    ∧ (∀ y ∈ acceptedOf image clipmin clipmax,
        (computeMean image clipmin clipmax).minValue ≤ y ∧
        y ≤ (computeMean image clipmin clipmax).maxValue)
    ∧ (computeMean image clipmin clipmax).minValue ≤
        (computeMean image clipmin clipmax).maxValue := by
  have hne : acceptedOf image clipmin clipmax ≠ [] := by
    intro hnil
    simp only [computeMean, computeMean_, finalState_numGood, hnil,
      List.length_nil, Nat.cast_zero, add_zero] at h
    omega
  have hmin : (computeMean image clipmin clipmax).minValue =
      (acceptedOf image clipmin clipmax).foldl min clipmax := by
    simp only [computeMean, computeMean_]
    exact finalState_min _ _ _ _
  have hmax : (computeMean image clipmin clipmax).maxValue =
      (acceptedOf image clipmin clipmax).foldl max clipmin := by
    simp only [computeMean, computeMean_]
    exact finalState_max _ _ _ _
  have hub : ∀ x ∈ acceptedOf image clipmin clipmax, x ≤ clipmax :=
    fun x hx => (mem_acceptedOf.mp hx).2.2
  have hlb : ∀ x ∈ acceptedOf image clipmin clipmax, clipmin ≤ x :=
    fun x hx => (mem_acceptedOf.mp hx).2.1
  have hminmem : (computeMean image clipmin clipmax).minValue ∈
      acceptedOf image clipmin clipmax := by
    rw [hmin]; exact foldl_min_mem_of_forall_le hne hub
  have hmaxmem : (computeMean image clipmin clipmax).maxValue ∈
      acceptedOf image clipmin clipmax := by
    rw [hmax]; exact foldl_max_mem_of_forall_ge hne hlb
  have hbounds : ∀ y ∈ acceptedOf image clipmin clipmax,
      (computeMean image clipmin clipmax).minValue ≤ y ∧
      y ≤ (computeMean image clipmin clipmax).maxValue := by
    intro y hy
    constructor
    · rw [hmin]; exact foldl_min_le_mem _ clipmax y hy
    · rw [hmax]; exact mem_le_foldl_max _ clipmin y hy
  refine ⟨(mem_acceptedOf.mp hminmem).1, (mem_acceptedOf.mp hmaxmem).1,
    hminmem, hmaxmem, hlb _ hminmem, hub _ hmaxmem, hbounds, ?_⟩
  exact (hbounds _ hminmem).2

/-- Witness for `minmax_of_accepted`: the buffer `[4, 1, 3]` with clip
range `[0, 10]` accepts everything; the returned minimum `1` is a member
of the buffer and does not exceed the returned maximum `4`. -/
theorem minmax_of_accepted_witness :
    (computeMean [(4 : ℚ), 1, 3] 0 10).minValue ∈ [(4 : ℚ), 1, 3] ∧
    (computeMean [(4 : ℚ), 1, 3] 0 10).minValue ≤
      (computeMean [(4 : ℚ), 1, 3] 0 10).maxValue :=
  ⟨(minmax_of_accepted [(4 : ℚ), 1, 3] 0 10 (by decide)).1,
   (minmax_of_accepted [(4 : ℚ), 1, 3] 0 10 (by decide)).2.2.2.2.2.2.2⟩

/-- C9: frame and determinism of the core as a memory transformer: a
call never modifies the sample buffer, and two calls on memories sharing
the same buffer and the same counter entry value — whatever the other
output cells held beforehand — return identical status and identical
final memories; in particular two calls with fully identical initial
memories agree. -/
theorem core_pure_deterministic (clipmin clipmax : ℚ) (m m₁ m₂ : Mem)
    (himg : m₁.image = m₂.image)
    (hn : m₁.numGoodPixels = m₂.numGoodPixels) :
    (computeMeanRun clipmin clipmax m).2.image = m.image
    ∧ computeMeanRun clipmin clipmax m₁ = computeMeanRun clipmin clipmax m₂ := by
  constructor
  · rfl
  · simp only [computeMeanRun, himg, hn]

/-- Witness for `core_pure_deterministic`: two memories with buffer
`[1, 2]` and counter `0` but different stale values in the output cells
produce the same call result, whose buffer is unchanged. -/
theorem core_pure_deterministic_witness :
    (computeMeanRun 0 10 ⟨[(1 : ℚ), 2], 0, 0, 0, 0, 0⟩).2.image = [(1 : ℚ), 2]
    ∧ computeMeanRun 0 10 ⟨[(1 : ℚ), 2], 0, 0, 0, 0, 0⟩ =
        computeMeanRun 0 10 ⟨[(1 : ℚ), 2], 0, 99, 5, 7, 8⟩ :=
  ⟨(core_pure_deterministic 0 10 ⟨[(1 : ℚ), 2], 0, 0, 0, 0, 0⟩
      ⟨[(1 : ℚ), 2], 0, 0, 0, 0, 0⟩ ⟨[(1 : ℚ), 2], 0, 99, 5, 7, 8⟩ rfl rfl).1,
   (core_pure_deterministic 0 10 ⟨[(1 : ℚ), 2], 0, 0, 0, 0, 0⟩
      ⟨[(1 : ℚ), 2], 0, 0, 0, 0, 0⟩ ⟨[(1 : ℚ), 2], 0, 99, 5, 7, 8⟩ rfl rfl).2⟩

/-- Permuting the buffer permutes its accepted sublist. -/
lemma acceptedOf_perm {image₁ image₂ : List ℚ} (h : image₁.Perm image₂)
    (clipmin clipmax : ℚ) :
    (acceptedOf image₁ clipmin clipmax).Perm (acceptedOf image₂ clipmin clipmax) :=
  h.filter (accept clipmin clipmax)

/-- Permuting the buffer does not change the state after the pass. -/
lemma finalState_perm {image₁ image₂ : List ℚ} (h : image₁.Perm image₂)
    (clipmin clipmax : ℚ) (n0 : Int) :
    finalState image₁ clipmin clipmax n0 = finalState image₂ clipmin clipmax n0 := by
  have hacc := acceptedOf_perm h clipmin clipmax
  rw [finalState_eq, finalState_eq]
  simp only [LoopState.mk.injEq]
  exact ⟨foldl_min_perm hacc clipmax, foldl_max_perm hacc clipmin,
    by rw [hacc.length_eq], hacc.sum_eq, ((hacc.map fun x => x * x)).sum_eq⟩

/-- C6: permutation invariance: permuting the sample buffer changes none
of the returned values — status, `numGoodPixels`, `mean`, the exact
argument of the `stddev` square root, `minValue` and `maxValue` are all
identical (in the exact arithmetic of the model), for the core at any
counter entry value and hence for the wrapper. -/
theorem perm_invariant (image₁ image₂ : List ℚ) (clipmin clipmax : ℚ)
    (h : image₁.Perm image₂) :
    (∀ n0 : Int, computeMean_ image₁ clipmin clipmax n0 =
      computeMean_ image₂ clipmin clipmax n0)
    ∧ computeMean image₁ clipmin clipmax = computeMean image₂ clipmin clipmax := by
  have hcore : ∀ n0 : Int, computeMean_ image₁ clipmin clipmax n0 =
      computeMean_ image₂ clipmin clipmax n0 := by
    intro n0
    simp only [computeMean_, finalState_perm h clipmin clipmax n0]
  exact ⟨hcore, hcore 0⟩

/-- Witness for `perm_invariant`: the buffers `[1, 7, 2]` and `[2, 1, 7]`
are permutations of one another and give identical results for clip
range `[0, 5]` (which clips the `7` away). -/
theorem perm_invariant_witness :
    computeMean [(1 : ℚ), 7, 2] 0 5 = computeMean [(2 : ℚ), 1, 7] 0 5 :=
  (perm_invariant [(1 : ℚ), 7, 2] [(2 : ℚ), 1, 7] 0 5 (by decide)).2

/-! Closed forms of the wrapper's returned fields. -/

lemma computeMean_numGood (image : List ℚ) (clipmin clipmax : ℚ) :
    (computeMean image clipmin clipmax).numGoodPixels =
      ((acceptedOf image clipmin clipmax).length : Int) := by
  simp only [computeMean, computeMean_]
  rw [finalState_numGood, zero_add]

lemma computeMean_mean (image : List ℚ) (clipmin clipmax : ℚ) :
    (computeMean image clipmin clipmax).mean =
      (acceptedOf image clipmin clipmax).sum /
        ((acceptedOf image clipmin clipmax).length : ℚ) := by
  simp only [computeMean, computeMean_]
  rw [finalState_sum, finalState_numGood, zero_add, Int.cast_natCast]

lemma computeMean_stddevSq (image : List ℚ) (clipmin clipmax : ℚ) :
    (computeMean image clipmin clipmax).stddevSq =
      (((acceptedOf image clipmin clipmax).map fun x => x * x).sum -
          (acceptedOf image clipmin clipmax).sum /
            ((acceptedOf image clipmin clipmax).length : ℚ) *
            (acceptedOf image clipmin clipmax).sum) /
        (((acceptedOf image clipmin clipmax).length : ℚ) - 1) := by
  simp only [computeMean, computeMean_]
  rw [finalState_sum, finalState_sumsq, finalState_numGood, zero_add]
  push_cast
  rfl

/-- C5: with at least two accepted samples, the value the C code hands
to `sqrt` is nonnegative — so the returned `stddev` squares back to it —
and that computational shortcut `(sumsq - mean*sum) / (numGood - 1)`
equals the reference unbiased sample variance
`Σ (x - mean)² / (numGood - 1)` over the accepted samples, with
`mean = sum / numGood` the mean of the accepted samples. -/
theorem stddev_shortcut_is_sample_variance (image : List ℚ)
    (clipmin clipmax : ℚ)
    (h : 2 ≤ (computeMean image clipmin clipmax).numGoodPixels) :
    (computeMean image clipmin clipmax).mean =
      (acceptedOf image clipmin clipmax).sum /
        ((computeMean image clipmin clipmax).numGoodPixels : ℚ)
    ∧ (computeMean image clipmin clipmax).stddevSq =
        ((acceptedOf image clipmin clipmax).map
            fun x => (x - (computeMean image clipmin clipmax).mean) ^ 2).sum /
          (((computeMean image clipmin clipmax).numGoodPixels : ℚ) - 1)
    ∧ Real.sqrt ((computeMean image clipmin clipmax).stddevSq : ℝ) ^ 2 =
        ((computeMean image clipmin clipmax).stddevSq : ℝ) := by
  have hn := computeMean_numGood image clipmin clipmax
  have h2 : 2 ≤ (acceptedOf image clipmin clipmax).length := by
    rw [hn] at h
    exact_mod_cast h
  have hL : ((acceptedOf image clipmin clipmax).length : ℚ) ≠ 0 := by
    have : (acceptedOf image clipmin clipmax).length ≠ 0 := by omega
    exact_mod_cast this
  have hmean : (computeMean image clipmin clipmax).mean =
      (acceptedOf image clipmin clipmax).sum /
        ((computeMean image clipmin clipmax).numGoodPixels : ℚ) := by
    rw [computeMean_mean, hn, Int.cast_natCast]
  have hvar : (computeMean image clipmin clipmax).stddevSq =
      ((acceptedOf image clipmin clipmax).map
          fun x => (x - (computeMean image clipmin clipmax).mean) ^ 2).sum /
        (((computeMean image clipmin clipmax).numGoodPixels : ℚ) - 1) := by
    rw [computeMean_stddevSq, hn, Int.cast_natCast, computeMean_mean,
      shortcut_eq_sum_sq_dev _ hL]
  refine ⟨hmean, hvar, ?_⟩
  have hnum : 0 ≤ ((acceptedOf image clipmin clipmax).map
      fun x => (x - (computeMean image clipmin clipmax).mean) ^ 2).sum := by
    apply List.sum_nonneg
    intro a ha
    obtain ⟨y, _, hy⟩ := List.mem_map.mp ha
    rw [← hy]
    exact sq_nonneg _
  have hden : 0 ≤ (((computeMean image clipmin clipmax).numGoodPixels : ℚ) - 1) := by
    rw [hn, Int.cast_natCast]
    have : (2 : ℚ) ≤ ((acceptedOf image clipmin clipmax).length : ℚ) := by
      exact_mod_cast h2
    linarith
  have hpos : 0 ≤ (computeMean image clipmin clipmax).stddevSq := by
    rw [hvar]
    exact div_nonneg hnum hden
  exact Real.sq_sqrt (by exact_mod_cast hpos)

/-- Witness for `stddev_shortcut_is_sample_variance`: the buffer
`[1, 2, 3]` under clip range `[0, 10]` accepts all three samples, the
mean is `2`, the variance shortcut gives `1`, and the square root of the
shortcut squares back to it. -/
theorem stddev_shortcut_is_sample_variance_witness :
    (computeMean [(1 : ℚ), 2, 3] 0 10).mean =
      (acceptedOf [(1 : ℚ), 2, 3] 0 10).sum /
        ((computeMean [(1 : ℚ), 2, 3] 0 10).numGoodPixels : ℚ) ∧
    Real.sqrt ((computeMean [(1 : ℚ), 2, 3] 0 10).stddevSq : ℝ) ^ 2 =
      ((computeMean [(1 : ℚ), 2, 3] 0 10).stddevSq : ℝ) :=
  ⟨(stddev_shortcut_is_sample_variance [(1 : ℚ), 2, 3] 0 10 (by decide)).1,
   (stddev_shortcut_is_sample_variance [(1 : ℚ), 2, 3] 0 10 (by decide)).2.2⟩

/-- C7: with exactly one accepted sample `x`, the expression inside the
`stddev` line is literally `0 / 0`: the accepted sublist is `[x]`, so
`sumsq = x * x` and `mean * sum = x * x` make the numerator
`sumsq - mean * sum` exactly zero, while the divisor `numGood - 1` is
the integer zero. -/
theorem single_sample_stddev_zero_over_zero (image : List ℚ)
    (clipmin clipmax : ℚ)
    (h : (computeMean image clipmin clipmax).numGoodPixels = 1) :
    (finalState image clipmin clipmax 0).sumsq -
        (finalState image clipmin clipmax 0).sum /
          ((finalState image clipmin clipmax 0).numGoodPixels : ℚ) *
          (finalState image clipmin clipmax 0).sum = 0
    ∧ (finalState image clipmin clipmax 0).numGoodPixels - 1 = 0
    ∧ ∃ x : ℚ, acceptedOf image clipmin clipmax = [x] ∧
        (finalState image clipmin clipmax 0).sumsq = x * x ∧
        (computeMean image clipmin clipmax).mean *
          (finalState image clipmin clipmax 0).sum = x * x := by
  have hn := computeMean_numGood image clipmin clipmax
  rw [hn] at h
  have hlen : (acceptedOf image clipmin clipmax).length = 1 := by exact_mod_cast h
  obtain ⟨x, hx⟩ := List.length_eq_one.mp hlen
  have hsum : (finalState image clipmin clipmax 0).sum = x := by
    rw [finalState_sum, hx]; simp
  have hsumsq : (finalState image clipmin clipmax 0).sumsq = x * x := by
    rw [finalState_sumsq, hx]; simp
  have hgood : (finalState image clipmin clipmax 0).numGoodPixels = 1 := by
    rw [finalState_numGood, hlen]; rfl
  have hmean : (computeMean image clipmin clipmax).mean = x := by
    rw [computeMean_mean, hx]; simp
  refine ⟨?_, ?_, x, hx, hsumsq, ?_⟩
  · rw [hsum, hsumsq, hgood]
    norm_num
  · rw [hgood]
    norm_num
  · rw [hmean, hsum]

/-- Witness for `single_sample_stddev_zero_over_zero`: the buffer
`[5, 15, 25]` with clip range `[10, 20]` accepts only `15`; the
numerator of the `stddev` expression is `0` and its divisor is `0`. -/
theorem single_sample_stddev_zero_over_zero_witness :
    (finalState [(5 : ℚ), 15, 25] 10 20 0).sumsq -
        (finalState [(5 : ℚ), 15, 25] 10 20 0).sum /
          ((finalState [(5 : ℚ), 15, 25] 10 20 0).numGoodPixels : ℚ) *
          (finalState [(5 : ℚ), 15, 25] 10 20 0).sum = 0
    ∧ (finalState [(5 : ℚ), 15, 25] 10 20 0).numGoodPixels - 1 = 0 :=
  ⟨(single_sample_stddev_zero_over_zero [(5 : ℚ), 15, 25] 10 20 (by decide)).1,
   (single_sample_stddev_zero_over_zero [(5 : ℚ), 15, 25] 10 20 (by decide)).2.1⟩

end ImageStats
